import Mathlib

/-!
Verification of the AIConnect reverse proxy against its specification.

The definitions below are shallow embeddings of the Go source:

* `ServerMetrics`, `applySuccess`, `applyError`, `applyHealthOnly`,
  `selectServer` embed `internal/loadbalancer` (Ollama and vLLM variants).
* `RegNode`, `addNode`, `updateNodeStatus`, `incrementErrorCount` embed
  `internal/registry/registry.go`.
* `isPublicPath`, `ldapAuthMiddleware`, `authenticateAndAuthorize` embed
  `internal/auth/ldap.go`.
* `ollamaDirector`, `vllmDirector`, `openaiDirector`, `handleOllama`,
  `handleVLLM`, `handleOpenAI` embed the proxy handler package.

Go `float64` values are modelled as rationals, Go `time.Time` as a natural
number (`0` plays the role of the zero `time.Time`), and Go strings as Lean
strings with the relevant `strings`-package helpers re-implemented over
`List Char`.
-/

set_option maxRecDepth 8000
set_option exponentiation.threshold 2000

/-! ## Go string helpers -/

/-- Go `strings.HasPrefix s pre`. -/
def goHasPre (s pre : String) : Bool :=
  pre.toList.isPrefixOf s.toList

/-- Go `strings.HasSuffix s suf`. -/
def goHasSuf (s suf : String) : Bool :=
  suf.toList.isSuffixOf s.toList

/-- Go `strings.TrimPrefix s pre`. -/
def goTrimPre (s pre : String) : String :=
  if goHasPre s pre then String.mk (s.toList.drop pre.toList.length) else s

/-- Go `strings.TrimSuffix s suf`. -/
def goTrimSuf (s suf : String) : String :=
  if goHasSuf s suf then String.mk (s.toList.take (s.toList.length - suf.toList.length)) else s

/-- Go `strings.ToLower` (per-character lowering). -/
def goToLower (s : String) : String :=
  String.mk (s.toList.map Char.toLower)

/-- Whether `needle` occurs as a contiguous segment of `hay`. -/
def segIn : List Char → List Char → Bool
  | [], needle => needle.isEmpty
  | x :: t, needle => needle.isPrefixOf (x :: t) || segIn t needle

/-- Go `strings.Contains s sub` (substring containment). -/
def goContains (s sub : String) : Bool :=
  segIn s.toList sub.toList

/-! ## HTTP headers

Go's `http.Header` is a map from canonical header names to value lists;
`Get` returns the first value (or `""`), `Set` replaces all values by one,
`Del` removes the key.  We model a header collection as an association
list; all keys the program manipulates are already in canonical form. -/

abbrev Headers := List (String × String)

/-- First value stored for a key, if any. -/
def hLookup : Headers → String → Option String
  | [], _ => none
  | (k, v) :: t, key => if k = key then some v else hLookup t key

/-- Go `Header.Get`: first value for the key, `""` when absent. -/
def hGet (h : Headers) (key : String) : String :=
  (hLookup h key).getD ""

/-- Go `Header.Del`: remove every value stored for the key. -/
def hDel : Headers → String → Headers
  | [], _ => []
  | (k, v) :: t, key => if k = key then hDel t key else (k, v) :: hDel t key

/-- Go `Header.Set`: replace all values for the key by a single one. -/
def hSet (h : Headers) (key v : String) : Headers :=
  (key, v) :: hDel h key

/-! ## Load balancer (`internal/loadbalancer`, Ollama and vLLM variants)

Both variants share the `ServerMetrics` record and have identical
constructor, error-handling and fallback logic; they differ only in the
probe step and in the extra `TotalWeight > 0` guard of the vLLM
`SelectServer`. -/

/-- `loadbalancer.ServerMetrics`. -/
structure ServerMetrics where
  url : String
  cpuPercent : ℚ
  ramPercent : ℚ
  gpuCount : Int
  gpuAvgUtil : ℚ
  gpuAvgMemory : ℚ
  available : Bool
  lastCheck : Nat
  errorCount : Nat
  totalWeight : ℚ
deriving DecidableEq, Inhabited, Repr

/-- Load-balancer state: the per-URL metrics (in iteration order) and the
round-robin index.  Both Go constructors fix `maxConsecErrors` to 3 and the
field is never written afterwards, so it is a constant here. -/
structure LB where
  metrics : List ServerMetrics
  roundRobinIndex : Nat
deriving DecidableEq, Inhabited, Repr

/-- `maxConsecErrors`, set to 3 by `NewOllamaLoadBalancer` and
`NewVLLMLoadBalancer`. -/
def maxConsecErrors : Nat := 3

/-- The initial `ServerMetrics` entry for one configured URL:
`&ServerMetrics{URL: server, Available: true}` (all other fields zero). -/
def mkEntry (url : String) : ServerMetrics :=
  { url := url
    cpuPercent := 0
    ramPercent := 0
    gpuCount := 0
    gpuAvgUtil := 0
    gpuAvgMemory := 0
    available := true
    lastCheck := 0
    errorCount := 0
    totalWeight := 0 }

/-- `NewOllamaLoadBalancer` / `NewVLLMLoadBalancer`: one fresh entry per
configured server, `roundRobinIndex = 0`. -/
def mkLB (servers : List String) : LB :=
  { metrics := servers.map mkEntry, roundRobinIndex := 0 }

/-- The JSON body of a successful metrics poll. -/
structure MetricsData where
  cpuPercent : ℚ
  ramPercent : ℚ
  gpuCount : Int
  gpuAvgUtil : ℚ
  gpuAvgMemory : ℚ
deriving DecidableEq, Repr

/-- The weight computation of `checkServer` (both variants):
`gpuWeight := 0; if GPUCount > 0 { gpuWeight = GPUAvgUtil*1.5 + GPUAvgMemory*1.5 };
TotalWeight = CPUPercent + RAMPercent + gpuWeight`. -/
def computeTotalWeight (d : MetricsData) : ℚ :=
  let gpuWeight : ℚ := if 0 < d.gpuCount then d.gpuAvgUtil * (3/2) + d.gpuAvgMemory * (3/2) else 0
  d.cpuPercent + d.ramPercent + gpuWeight

/-- Successful metrics poll on one entry (`checkServer`, success path):
overwrite the metrics, recompute the weight, set `Available = true`,
`LastCheck = now`, `ErrorCount = 0`. -/
def applySuccess (d : MetricsData) (now : Nat) (m : ServerMetrics) : ServerMetrics :=
  { m with
    cpuPercent := d.cpuPercent
    ramPercent := d.ramPercent
    gpuCount := d.gpuCount
    gpuAvgUtil := d.gpuAvgUtil
    gpuAvgMemory := d.gpuAvgMemory
    totalWeight := computeTotalWeight d
    available := true
    lastCheck := now
    errorCount := 0 }

/-- vLLM `checkServer` fallback when `/health` succeeds but `/metrics` is
absent or malformed: `Available = true`, `LastCheck = now`,
`ErrorCount = 0`, metrics left as they were. -/
def applyHealthOnly (now : Nat) (m : ServerMetrics) : ServerMetrics :=
  { m with available := true, lastCheck := now, errorCount := 0 }

/-- `handleServerError` (both variants): `ErrorCount++`, `LastCheck = now`,
and when `ErrorCount >= maxConsecErrors` set `Available = false`. -/
def applyError (now : Nat) (m : ServerMetrics) : ServerMetrics :=
  let m1 := { m with errorCount := m.errorCount + 1, lastCheck := now }
  if maxConsecErrors ≤ m1.errorCount then { m1 with available := false } else m1

/-- Apply an update to the map entry of one URL (Go mutates
`lb.metrics[serverURL]` in place). -/
def updateEntry (l : List ServerMetrics) (url : String) (f : ServerMetrics → ServerMetrics) :
    List ServerMetrics :=
  l.map fun m => if m.url = url then f m else m

/-- One successful Ollama metrics poll (or successful vLLM health+metrics
poll) against `url` at time `now`. -/
def stepSuccess (lb : LB) (url : String) (d : MetricsData) (now : Nat) : LB :=
  { lb with metrics := updateEntry lb.metrics url (applySuccess d now) }

/-- One successful vLLM health probe without usable metrics. -/
def stepHealthOnly (lb : LB) (url : String) (now : Nat) : LB :=
  { lb with metrics := updateEntry lb.metrics url (applyHealthOnly now) }

/-- One failed poll against `url` at time `now`. -/
def stepFailure (lb : LB) (url : String) (now : Nat) : LB :=
  { lb with metrics := updateEntry lb.metrics url (applyError now) }

/-- `math.MaxFloat64`, the sentinel initial value of `minWeight` in
`SelectServer`.  Its exact value is `2^1024 - 2^971`. -/
def maxFloat64 : ℚ := ((2 ^ 1024 - 2 ^ 971 : Nat) : ℚ)

/-- One iteration of the Ollama `SelectServer` weighted loop: keep
`(minWeight, selectedServer)` and replace it when the entry has been
probed and strictly undercuts the current minimum. -/
def selStep (acc : ℚ × String) (m : ServerMetrics) : ℚ × String :=
  if m.lastCheck ≠ 0 ∧ m.totalWeight < acc.1 then (m.totalWeight, m.url) else acc

/-- The weighted least-load scan of the Ollama `SelectServer`, starting
from `minWeight = math.MaxFloat64`, `selectedServer = ""`. -/
def selectWeighted (avail : List ServerMetrics) : ℚ × String :=
  avail.foldl selStep (maxFloat64, "")

/-- The round-robin fallback: `availableServers[roundRobinIndex % len]`. -/
def roundRobinPick (avail : List ServerMetrics) (idx : Nat) : String :=
  (avail.getD (idx % avail.length) default).url

/-- Ollama `SelectServer`.  Returns the chosen URL (or `none` when no
server is available) together with the updated balancer state (the
round-robin index advances only on the fallback path). -/
def selectServer (lb : LB) : Option String × LB :=
  let avail := lb.metrics.filter fun m => m.available
  if avail.isEmpty then (none, lb)
  else if avail.any fun m => decide (m.lastCheck ≠ 0) then
    let sel := (selectWeighted avail).2
    if sel = "" then
      (some (roundRobinPick avail lb.roundRobinIndex),
        { lb with roundRobinIndex := lb.roundRobinIndex + 1 })
    else (some sel, lb)
  else
    (some (roundRobinPick avail lb.roundRobinIndex),
      { lb with roundRobinIndex := lb.roundRobinIndex + 1 })

/-- One iteration of the vLLM `SelectServer` weighted loop; the vLLM
variant additionally requires `TotalWeight > 0`. -/
def selStepV (acc : ℚ × String) (m : ServerMetrics) : ℚ × String :=
  if m.lastCheck ≠ 0 ∧ 0 < m.totalWeight ∧ m.totalWeight < acc.1 then (m.totalWeight, m.url) else acc

/-- vLLM `SelectServer`. -/
def selectServerV (lb : LB) : Option String × LB :=
  let avail := lb.metrics.filter fun m => m.available
  if avail.isEmpty then (none, lb)
  else if avail.any fun m => decide (m.lastCheck ≠ 0) && decide (0 < m.totalWeight) then
    let sel := (avail.foldl selStepV (maxFloat64, "")).2
    if sel = "" then
      (some (roundRobinPick avail lb.roundRobinIndex),
        { lb with roundRobinIndex := lb.roundRobinIndex + 1 })
    else (some sel, lb)
  else
    (some (roundRobinPick avail lb.roundRobinIndex),
      { lb with roundRobinIndex := lb.roundRobinIndex + 1 })

/-- The states a load balancer can reach: the freshly constructed balancer,
followed by any interleaving of per-URL poll outcomes and selections.
`now` is positive because `time.Now()` is never the zero time. -/
inductive ReachableLB : LB → Prop
  | init (servers : List String) : ReachableLB (mkLB servers)
  | success {lb : LB} (url : String) (d : MetricsData) (now : Nat)
      (hnow : 0 < now) (h : ReachableLB lb) : ReachableLB (stepSuccess lb url d now)
  | healthOnly {lb : LB} (url : String) (now : Nat)
      (hnow : 0 < now) (h : ReachableLB lb) : ReachableLB (stepHealthOnly lb url now)
  | failure {lb : LB} (url : String) (now : Nat)
      (hnow : 0 < now) (h : ReachableLB lb) : ReachableLB (stepFailure lb url now)
  | select {lb : LB} (h : ReachableLB lb) : ReachableLB (selectServer lb).2
  | selectV {lb : LB} (h : ReachableLB lb) : ReachableLB (selectServerV lb).2

/-- `n` consecutive `SelectServer` calls, collecting the returned URLs. -/
def selectCalls : Nat → LB → List (Option String) × LB
  | 0, lb => ([], lb)
  | n + 1, lb =>
    let r := selectServer lb
    let rest := selectCalls n r.2
    (r.1 :: rest.1, rest.2)

/-! ## Node registry (`internal/registry/registry.go`)

The registry map `map[string]*Node` keyed by `host:port` is modelled as an
association list with at most one binding per key (`aset` replaces any
previous binding).  Event emission has no effect on the node state and is
not modelled. -/

/-- `registry.Node`.  `Status` is the Go string-typed `NodeStatus`
(`"healthy"`, `"unreachable"`, `"unknown"`). -/
structure RegNode where
  name : String
  ntype : String
  host : String
  port : Nat
  status : String
  lastSeen : Nat
  errorCount : Nat
deriving DecidableEq, Inhabited, Repr

/-- `nodeKey`: `fmt.Sprintf("%s:%d", host, port)`. -/
def nodeKey (host : String) (port : Nat) : String :=
  host ++ ":" ++ toString port

/-- Lookup in an association list (Go map read). -/
def alookup : List (String × RegNode) → String → Option RegNode
  | [], _ => none
  | (k, v) :: t, key => if k = key then some v else alookup t key

/-- Remove every binding of a key (helper for map writes). -/
def adel : List (String × RegNode) → String → List (String × RegNode)
  | [], _ => []
  | (k, v) :: t, key => if k = key then adel t key else (k, v) :: adel t key

/-- Go map write `r.nodes[key] = node`: insert or replace. -/
def aset (r : List (String × RegNode)) (key : String) (n : RegNode) :
    List (String × RegNode) :=
  (key, n) :: adel r key

/-- `Registry.AddNode`: set `LastSeen = now`, default an empty status to
`"unknown"`, and insert or replace the entry keyed by `host:port`. -/
def addNode (r : List (String × RegNode)) (node : RegNode) (now : Nat) :
    List (String × RegNode) :=
  let key := nodeKey node.host node.port
  let node := { node with
    lastSeen := now
    status := if node.status = "" then "unknown" else node.status }
  aset r key node

/-- `Registry.UpdateNodeStatus`: when the node exists, overwrite the status
and `LastSeen`; reset `ErrorCount` only on a transition into `"healthy"`
from a different status. -/
def updateNodeStatus (r : List (String × RegNode)) (host : String) (port : Nat)
    (status : String) (now : Nat) : List (String × RegNode) :=
  let key := nodeKey host port
  match alookup r key with
  | none => r
  | some node =>
    let oldStatus := node.status
    let node := { node with status := status, lastSeen := now }
    let node :=
      if status = "healthy" ∧ oldStatus ≠ "healthy" then
        { node with errorCount := 0 }
      else node
    aset r key node

/-- `Registry.IncrementErrorCount`: when the node exists, `ErrorCount++`;
when the new count reaches `maxErrors` the status becomes `"unreachable"`
and the call reports `true`. -/
def incrementErrorCount (r : List (String × RegNode)) (host : String) (port : Nat)
    (maxErrors : Nat) : List (String × RegNode) × Bool :=
  let key := nodeKey host port
  match alookup r key with
  | none => (r, false)
  | some node =>
    let node := { node with errorCount := node.errorCount + 1 }
    if maxErrors ≤ node.errorCount then
      (aset r key { node with status := "unreachable" }, true)
    else
      (aset r key node, false)

/-- Registry states reachable from the empty registry by `AddNode` (with a
zero error count, as every caller in the repository constructs nodes),
`UpdateNodeStatus` and `IncrementErrorCount` with a fixed threshold. -/
inductive ReachableReg (maxErrors : Nat) : List (String × RegNode) → Prop
  | init : ReachableReg maxErrors []
  | add {r : List (String × RegNode)} (node : RegNode) (now : Nat)
      (hz : node.errorCount = 0) (h : ReachableReg maxErrors r) :
      ReachableReg maxErrors (addNode r node now)
  | update {r : List (String × RegNode)} (host : String) (port : Nat)
      (status : String) (now : Nat) (h : ReachableReg maxErrors r) :
      ReachableReg maxErrors (updateNodeStatus r host port status now)
  | increment {r : List (String × RegNode)} (host : String) (port : Nat)
      (h : ReachableReg maxErrors r) :
      ReachableReg maxErrors (incrementErrorCount r host port maxErrors).1

/-! ## Auth middleware (`internal/auth/ldap.go`) -/

/-- `isPublicPath`: wildcard patterns `p/*` match any path with the prefix
`p/`, patterns ending in `/` match by prefix, anything else by equality. -/
def isPublicPath (path : String) (publicPaths : List String) : Bool :=
  publicPaths.any fun publicPath =>
    if goHasSuf publicPath "/*" then
      goHasPre path (goTrimSuf publicPath "*")
    else if goHasSuf publicPath "/" then
      goHasPre path publicPath
    else path == publicPath

/-- The configuration fields of `cfg.AD` the middleware reads.
`adEnabled = false` models `cfg.AD.Enabled != nil && !*cfg.AD.Enabled`. -/
structure MWConfig where
  adEnabled : Bool
  publicPaths : List String
  allowedGroups : List String

/-- One LDAP search result entry: its DN and the `memberOf` values. -/
structure LdapEntry where
  dn : String
  memberOf : List String

/-- The directory as seen by one request: whether dialling and the service
bind succeed, the search outcome per username (`none` = search error), and
which DN/password pairs bind successfully. -/
structure LdapEnv where
  dialOk : Bool
  serviceBindOk : Bool
  search : String → Option (List LdapEntry)
  userBindOk : String → String → Bool

/-- The group-membership check of `authenticateAndAuthorize`: some
configured allowed group occurs (case-insensitively) as a substring of
some `memberOf` value. -/
def groupAuthorized (allowedGroups userGroups : List String) : Bool :=
  allowedGroups.any fun allowedGroup =>
    userGroups.any fun userGroup =>
      goContains (goToLower userGroup) (goToLower allowedGroup)

/-- `authenticateAndAuthorize`: dial, service bind, search by
`sAMAccountName`, user bind, group check; the first failure aborts with an
error. -/
def authenticateAndAuthorize (cfg : MWConfig) (env : LdapEnv)
    (username password : String) : Except String Unit :=
  if env.dialOk = false then .error "errore connessione LDAP"
  else if env.serviceBindOk = false then .error "errore bind service account"
  else
    match env.search username with
    | none => .error "errore ricerca utente"
    | some [] => .error "utente non trovato"
    | some (entry :: _) =>
      if env.userBindOk entry.dn password = false then .error "credenziali invalide"
      else if groupAuthorized cfg.allowedGroups entry.memberOf then .ok ()
      else .error "nessun gruppo autorizzato"

/-- Go `strings.SplitN(s, ":", 2)` modelled as the split at the first
colon: `none` when the string has no colon. -/
def breakAtColon : List Char → Option (List Char × List Char)
  | [] => none
  | x :: t =>
    if x = ':' then some ([], t)
    else
      match breakAtColon t with
      | none => none
      | some (u, p) => some (x :: u, p)

/-- An HTTP request as far as the middleware and the proxy directors are
concerned. -/
structure Request where
  path : String
  headers : Headers
  remoteAddr : String
  scheme : String
  host : String
deriving DecidableEq, Repr

/-- The middleware either forwards a (possibly rewritten) request to the
next handler or rejects it with an HTTP status and body. -/
inductive MWOutcome
  | forward (r : Request)
  | reject (status : Nat) (body : String)
deriving DecidableEq, Repr

/-- `LDAPAuthMiddleware`: bypass when auth is disabled or the path is
public; otherwise require a decodable `Basic` credential pair (else 401)
and a fully successful directory flow (else 403); on success forward with
`X-Forwarded-User` set.  `b64Decode` stands for
`base64.StdEncoding.DecodeString` (`none` = decode error). -/
def ldapAuthMiddleware (cfg : MWConfig) (b64Decode : String → Option String)
    (env : LdapEnv) (r : Request) : MWOutcome :=
  if cfg.adEnabled = false then .forward r
  else if isPublicPath r.path cfg.publicPaths then .forward r
  else
    let authHeader := hGet r.headers "Authorization"
    if authHeader = "" then .reject 401 "Unauthorized"
    else if goHasPre authHeader "Basic " = false then .reject 401 "Unauthorized"
    else
      match b64Decode (goTrimPre authHeader "Basic ") with
      | none => .reject 401 "Unauthorized"
      | some decoded =>
        match breakAtColon decoded.toList with
        | none => .reject 401 "Unauthorized"
        | some (u, p) =>
          let username := String.mk u
          let password := String.mk p
          match authenticateAndAuthorize cfg env username password with
          | .error _ => .reject 403 "Forbidden"
          | .ok _ => .forward { r with headers := hSet r.headers "X-Forwarded-User" username }

/-! ## Proxy handler (request directors and routing) -/

/-- The Ollama director: rewrite scheme/host, strip the `/ollama` routing
prefix (empty result becomes `/`), drop the client `Authorization`, keep a
non-empty `X-Forwarded-User`, set `X-Forwarded-For` and
`X-Forwarded-Proto`. -/
def ollamaDirector (targetScheme targetHost : String) (req : Request) : Request :=
  { req with
    scheme := targetScheme
    host := targetHost
    path := (let p := goTrimPre req.path "/ollama"; if p = "" then "/" else p)
    headers :=
      let h := hDel req.headers "Authorization"
      let h :=
        if hGet h "X-Forwarded-User" ≠ "" then
          hSet h "X-Forwarded-User" (hGet h "X-Forwarded-User")
        else h
      let h := hSet h "X-Forwarded-For" req.remoteAddr
      hSet h "X-Forwarded-Proto" "https" }

/-- The vLLM director: identical to the Ollama one with prefix `/vllm`. -/
def vllmDirector (targetScheme targetHost : String) (req : Request) : Request :=
  { req with
    scheme := targetScheme
    host := targetHost
    path := (let p := goTrimPre req.path "/vllm"; if p = "" then "/" else p)
    headers :=
      let h := hDel req.headers "Authorization"
      let h :=
        if hGet h "X-Forwarded-User" ≠ "" then
          hSet h "X-Forwarded-User" (hGet h "X-Forwarded-User")
        else h
      let h := hSet h "X-Forwarded-For" req.remoteAddr
      hSet h "X-Forwarded-Proto" "https" }

/-- The OpenAI director: rewrite scheme/host, replace `Authorization` by
`Bearer <shared key>`, keep a non-empty `X-Forwarded-User`.  (The `/openai`
prefix is stripped by `handleOpenAI` before the proxy runs.) -/
def openaiDirector (targetScheme targetHost sharedKey : String) (req : Request) : Request :=
  { req with
    scheme := targetScheme
    host := targetHost
    headers :=
      let h := hDel req.headers "Authorization"
      let h := hSet h "Authorization" ("Bearer " ++ sharedKey)
      if hGet h "X-Forwarded-User" ≠ "" then
        hSet h "X-Forwarded-User" (hGet h "X-Forwarded-User")
      else h }

/-- What one backend handler did: the locally written status (`none` when
the upstream response was streamed back), the upstream actually contacted,
and how often the `proxy_errors_total` and `proxy_requests_total` counters
were incremented. -/
structure HandlerResult where
  status : Option Nat
  upstreamTarget : Option String
  proxyErrorsInc : Nat
  proxyRequestsInc : Nat
  latencyRecorded : Bool
deriving DecidableEq, Repr

/-- `Handler.handleOllama`: on selector failure answer
`503 Service Unavailable` and bump `proxy_errors_total` without contacting
any upstream; otherwise proxy to the selected server (a transport failure
surfaces as `502 Bad Gateway` plus an error increment).  The handler never
calls `IncrementProxyRequests`. -/
def handleOllama (lb : LB) (upstreamFails : Bool) : HandlerResult × LB :=
  match selectServer lb with
  | (none, lbA) =>
    ({ status := some 503, upstreamTarget := none, proxyErrorsInc := 1,
       proxyRequestsInc := 0, latencyRecorded := false }, lbA)
  | (some url, lbA) =>
    if upstreamFails then
      ({ status := some 502, upstreamTarget := some url, proxyErrorsInc := 1,
         proxyRequestsInc := 0, latencyRecorded := true }, lbA)
    else
      ({ status := none, upstreamTarget := some url, proxyErrorsInc := 0,
         proxyRequestsInc := 0, latencyRecorded := true }, lbA)

/-- `Handler.handleVLLM`: same shape as `handleOllama` over the vLLM
selector. -/
def handleVLLM (lb : LB) (upstreamFails : Bool) : HandlerResult × LB :=
  match selectServerV lb with
  | (none, lbA) =>
    ({ status := some 503, upstreamTarget := none, proxyErrorsInc := 1,
       proxyRequestsInc := 0, latencyRecorded := false }, lbA)
  | (some url, lbA) =>
    if upstreamFails then
      ({ status := some 502, upstreamTarget := some url, proxyErrorsInc := 1,
         proxyRequestsInc := 0, latencyRecorded := true }, lbA)
    else
      ({ status := none, upstreamTarget := some url, proxyErrorsInc := 0,
         proxyRequestsInc := 0, latencyRecorded := true }, lbA)

/-- `Handler.handleOpenAI`: no selector; proxy to the fixed endpoint. -/
def handleOpenAI (endpoint : String) (upstreamFails : Bool) : HandlerResult :=
  if upstreamFails then
    { status := some 502, upstreamTarget := some endpoint, proxyErrorsInc := 1,
      proxyRequestsInc := 0, latencyRecorded := true }
  else
    { status := none, upstreamTarget := some endpoint, proxyErrorsInc := 0,
      proxyRequestsInc := 0, latencyRecorded := true }

/-! ## Header lemmas -/

/-- All entries of a header collection stored under one key. -/
def keyEntries (h : Headers) (key : String) : Headers :=
  h.filter fun x => decide (x.1 = key)

lemma keyEntries_hDel_self (h : Headers) (k : String) :
    keyEntries (hDel h k) k = [] := by
  induction h with
  | nil => rfl
  | cons p t ih =>
    obtain ⟨k0, v0⟩ := p
    simp only [keyEntries] at ih ⊢
    by_cases hk : k0 = k
    · simp [hDel, hk, ih]
    · simp [hDel, hk, ih]

lemma keyEntries_hDel_ne (h : Headers) (k k' : String) (hne : k' ≠ k) :
    keyEntries (hDel h k') k = keyEntries h k := by
  induction h with
  | nil => rfl
  | cons p t ih =>
    obtain ⟨k0, v0⟩ := p
    simp only [keyEntries] at ih ⊢
    by_cases hk : k0 = k'
    · subst hk
      simp [hDel, hne, ih]
    · by_cases hk2 : k0 = k
      · subst hk2
        simp [hDel, hk, ih]
      · simp [hDel, hk, hk2, ih]

lemma keyEntries_hSet_ne (h : Headers) (k k' v : String) (hne : k' ≠ k) :
    keyEntries (hSet h k' v) k = keyEntries h k := by
  have h1 := keyEntries_hDel_ne h k k' hne
  simp only [keyEntries] at h1 ⊢
  simp [hSet, hne, h1]

lemma keyEntries_hSet_self (h : Headers) (k v : String) :
    keyEntries (hSet h k v) k = [(k, v)] := by
  have h1 := keyEntries_hDel_self h k
  simp only [keyEntries] at h1 ⊢
  simp [hSet, h1]

lemma hLookup_hDel_ne (h : Headers) (k k' : String) (hne : k' ≠ k) :
    hLookup (hDel h k') k = hLookup h k := by
  induction h with
  | nil => rfl
  | cons p t ih =>
    obtain ⟨k0, v0⟩ := p
    by_cases hk : k0 = k'
    · subst hk
      simp [hDel, hLookup, hne, ih, Ne.symm hne]
    · by_cases hk2 : k0 = k
      · subst hk2
        simp [hDel, hLookup, hk, ih]
      · simp [hDel, hLookup, hk, hk2, ih]

lemma hGet_hDel_ne (h : Headers) (k k' : String) (hne : k' ≠ k) :
    hGet (hDel h k') k = hGet h k := by
  simp [hGet, hLookup_hDel_ne h k k' hne]

lemma hGet_hSet_self (h : Headers) (k v : String) :
    hGet (hSet h k v) k = v := by
  simp [hGet, hSet, hLookup]

lemma hGet_hSet_ne (h : Headers) (k k' v : String) (hne : k' ≠ k) :
    hGet (hSet h k' v) k = hGet h k := by
  simp [hGet, hSet, hLookup, hne, hLookup_hDel_ne h k k' hne]

/-! ## Claim C1 -/

/-- Claim C1: an outbound proxied request never carries the client-supplied
`Authorization` header: the Ollama and vLLM directors send no
`Authorization` header upstream at all, and the OpenAI director sends
exactly `Authorization: Bearer <configured shared key>` regardless of any
client-supplied value. -/
theorem claim1_outbound_authorization (targetScheme targetHost sharedKey : String)
    (req : Request) :
    keyEntries (ollamaDirector targetScheme targetHost req).headers "Authorization" = []
    ∧ keyEntries (vllmDirector targetScheme targetHost req).headers "Authorization" = []
    ∧ keyEntries (openaiDirector targetScheme targetHost sharedKey req).headers "Authorization"
        = [("Authorization", "Bearer " ++ sharedKey)] := by
  refine ⟨?_, ?_, ?_⟩
  · simp only [ollamaDirector]
    rw [keyEntries_hSet_ne _ _ _ _ (by decide), keyEntries_hSet_ne _ _ _ _ (by decide)]
    split_ifs with hcond
    · rw [keyEntries_hSet_ne _ _ _ _ (by decide), keyEntries_hDel_self]
    · rw [keyEntries_hDel_self]
  · simp only [vllmDirector]
    rw [keyEntries_hSet_ne _ _ _ _ (by decide), keyEntries_hSet_ne _ _ _ _ (by decide)]
    split_ifs with hcond
    · rw [keyEntries_hSet_ne _ _ _ _ (by decide), keyEntries_hDel_self]
    · rw [keyEntries_hDel_self]
  · simp only [openaiDirector]
    split_ifs with hcond
    · rw [keyEntries_hSet_ne _ _ _ _ (by decide), keyEntries_hSet_self]
    · rw [keyEntries_hSet_self]

/-! ## Claim C6 -/

lemma isPrefixOf_iff_append {l1 l2 : List Char} :
    l1.isPrefixOf l2 = true ↔ ∃ t, l1 ++ t = l2 := by
  induction l1 generalizing l2 with
  | nil => simp
  | cons a as ih =>
    cases l2 with
    | nil => simp [List.isPrefixOf]
    | cons b bs =>
      simp only [List.isPrefixOf, Bool.and_eq_true, beq_iff_eq, List.cons_append,
        List.cons.injEq]
      constructor
      · rintro ⟨rfl, hp⟩
        obtain ⟨t, rfl⟩ := ih.mp hp
        exact ⟨t, rfl, rfl⟩
      · rintro ⟨t, rfl, rfl⟩
        exact ⟨rfl, ih.mpr ⟨t, rfl⟩⟩

lemma goHasPre_iff (s pre : String) :
    goHasPre s pre = true ↔ ∃ t, pre.toList ++ t = s.toList := by
  unfold goHasPre
  exact isPrefixOf_iff_append

/-- The pattern semantics exactly as the specification words them: a
pattern with a trailing `/*` matches iff the path starts with the pattern
minus the `*`; a pattern ending in `/` (without `*`) matches iff the path
starts with it; any other pattern matches iff the path equals it. -/
def specPatternMatch (path publicPath : String) : Prop :=
  if goHasSuf publicPath "/*" then
    ∃ rest, (goTrimSuf publicPath "*").toList ++ rest = path.toList
  else if goHasSuf publicPath "/" then
    ∃ rest, publicPath.toList ++ rest = path.toList
  else path = publicPath

lemma patternMatch_iff (path publicPath : String) :
    (if goHasSuf publicPath "/*" then
      goHasPre path (goTrimSuf publicPath "*")
    else if goHasSuf publicPath "/" then
      goHasPre path publicPath
    else path == publicPath) = true ↔ specPatternMatch path publicPath := by
  unfold specPatternMatch
  split_ifs with h1 h2
  · exact goHasPre_iff path (goTrimSuf publicPath "*")
  · exact goHasPre_iff path publicPath
  · simp

/-- Claim C6: the public-path match is exactly as specified — `/*` patterns
match by the prefix obtained by stripping the `*`, patterns ending in `/`
match by prefix, anything else by equality; in particular `/ollama/*`
matches `/ollama/` and `/ollama/y` but not `/ollama-admin/x`. -/
theorem claim6_public_path_semantics :
    (∀ (path : String) (publicPaths : List String),
      isPublicPath path publicPaths = true ↔
        ∃ publicPath ∈ publicPaths, specPatternMatch path publicPath)
    ∧ isPublicPath "/ollama/" ["/ollama/*"] = true
    ∧ isPublicPath "/ollama/y" ["/ollama/*"] = true
    ∧ isPublicPath "/ollama-admin/x" ["/ollama/*"] = false := by
  refine ⟨fun path publicPaths => ?_, by decide, by decide, by decide⟩
  rw [isPublicPath, List.any_eq_true]
  constructor
  · rintro ⟨publicPath, hmem, hmatch⟩
    exact ⟨publicPath, hmem, (patternMatch_iff path publicPath).mp hmatch⟩
  · rintro ⟨publicPath, hmem, hmatch⟩
    exact ⟨publicPath, hmem, (patternMatch_iff path publicPath).mpr hmatch⟩

/-! ## Claim C9 -/

/-- Claim C9: a successfully parsed metrics poll stores
`total_weight = cpu + ram` when `gpu_count = 0` (indeed whenever it is not
positive) and `cpu + ram + 1.5·gpu_util + 1.5·gpu_mem` when
`gpu_count > 0`; in particular the response
`{cpu=45.5, ram=60, gpu_count=2, gpu_util=30, gpu_mem=40}` yields
`total_weight = 210.5`. -/
theorem claim9_total_weight_formula :
    (∀ (m : ServerMetrics) (d : MetricsData) (now : Nat),
      (applySuccess d now m).totalWeight =
        if 0 < d.gpuCount then
          d.cpuPercent + d.ramPercent + (3/2) * d.gpuAvgUtil + (3/2) * d.gpuAvgMemory
        else d.cpuPercent + d.ramPercent)
    ∧ (applySuccess ⟨45.5, 60, 2, 30, 40⟩ 1 (mkEntry "http://a")).totalWeight = 210.5 := by
  constructor
  · intro m d now
    simp only [applySuccess, computeTotalWeight]
    split_ifs with h
    · ring
    · ring
  · simp only [applySuccess, computeTotalWeight]
    norm_num

/-! ## Claim C8 -/

/-- Claim C8: contrary to the specification, no backend handler ever
increments `proxy_requests_total`: `IncrementProxyRequests` is defined in
the metrics manager but never called, so the count of increments is 0 on
every path of every handler — including the successful proxy path of a
freshly configured Ollama backend. -/
theorem claim8_proxy_requests_never_incremented :
    (∀ (lb : LB) (upstreamFails : Bool),
      ((handleOllama lb upstreamFails).1).proxyRequestsInc = 0)
    ∧ (∀ (lb : LB) (upstreamFails : Bool),
      ((handleVLLM lb upstreamFails).1).proxyRequestsInc = 0)
    ∧ (∀ (endpoint : String) (upstreamFails : Bool),
      (handleOpenAI endpoint upstreamFails).proxyRequestsInc = 0)
    ∧ (handleOllama (mkLB ["http://o1"]) false).1.upstreamTarget = some "http://o1"
    ∧ (handleOllama (mkLB ["http://o1"]) false).1.status = none
    ∧ (handleOllama (mkLB ["http://o1"]) false).1.proxyRequestsInc = 0 := by
  refine ⟨?_, ?_, ?_, by decide, by decide, by decide⟩
  · intro lb upstreamFails
    rcases h : selectServer lb with ⟨r, lbA⟩
    cases r <;> cases upstreamFails <;> simp [handleOllama, h]
  · intro lb upstreamFails
    rcases h : selectServerV lb with ⟨r, lbA⟩
    cases r <;> cases upstreamFails <;> simp [handleVLLM, h]
  · intro endpoint upstreamFails
    cases upstreamFails <;> simp [handleOpenAI]

/-! ## Claim C2 -/

lemma mem_updateEntry {l : List ServerMetrics} {url : String}
    {f : ServerMetrics → ServerMetrics} {m : ServerMetrics}
    (hm : m ∈ updateEntry l url f) : ∃ m0 ∈ l, m = f m0 ∨ m = m0 := by
  simp only [updateEntry, List.mem_map] at hm
  obtain ⟨m0, hm0, rfl⟩ := hm
  by_cases hu : m0.url = url
  · exact ⟨m0, hm0, by simp [hu]⟩
  · exact ⟨m0, hm0, by simp [hu]⟩

lemma selectServer_preserves_metrics (lb : LB) :
    ((selectServer lb).2).metrics = lb.metrics := by
  dsimp only [selectServer]
  split_ifs <;> rfl

lemma selectServerV_preserves_metrics (lb : LB) :
    ((selectServerV lb).2).metrics = lb.metrics := by
  dsimp only [selectServerV]
  split_ifs <;> rfl

lemma applySuccess_available (d : MetricsData) (now : Nat) (m : ServerMetrics) :
    (applySuccess d now m).available = true ∧ (applySuccess d now m).errorCount = 0 := by
  simp [applySuccess]

lemma availInv_reachable {lb : LB} (h : ReachableLB lb) :
    ∀ m ∈ lb.metrics, m.available = true ↔ m.errorCount < maxConsecErrors := by
  induction h with
  | init servers =>
    intro m hm
    simp only [mkLB, List.mem_map] at hm
    obtain ⟨u, _, rfl⟩ := hm
    simp [mkEntry, maxConsecErrors]
  | success url d now hnow h ih =>
    intro m hm
    obtain ⟨m0, hm0, hcase⟩ := mem_updateEntry hm
    rcases hcase with rfl | rfl
    · simp [applySuccess, maxConsecErrors]
    · exact ih _ hm0
  | healthOnly url now hnow h ih =>
    intro m hm
    obtain ⟨m0, hm0, hcase⟩ := mem_updateEntry hm
    rcases hcase with rfl | rfl
    · simp [applyHealthOnly, maxConsecErrors]
    · exact ih _ hm0
  | failure url now hnow h ih =>
    intro m hm
    obtain ⟨m0, hm0, hcase⟩ := mem_updateEntry hm
    rcases hcase with rfl | rfl
    · simp only [applyError]
      split_ifs with h3
      · simp only [Bool.false_eq_true, false_iff, not_lt]
        exact h3
      · have hlt : m0.errorCount + 1 < maxConsecErrors := not_le.mp h3
        have hav : m0.available = true :=
          (ih _ hm0).mpr (Nat.lt_of_succ_lt hlt)
        simp [hav, hlt]
    · exact ih _ hm0
  | select h ih =>
    rw [selectServer_preserves_metrics]
    exact ih
  | selectV h ih =>
    rw [selectServerV_preserves_metrics]
    exact ih

/-- Claim C2: in every reachable load-balancer state (either variant) and
for every configured server entry, `available = true ⇔ error_count < 3`;
the initial state has `available = true` and `error_count = 0`, a
successful poll resets `error_count` to 0 and sets `available = true`, and
a failed poll that brings `error_count` to the threshold or beyond sets
`available = false`. -/
theorem claim2_availability_invariant (lb : LB) (h : ReachableLB lb) :
    (∀ m ∈ lb.metrics, m.available = true ↔ m.errorCount < maxConsecErrors)
    ∧ (∀ servers : List String, ∀ m ∈ (mkLB servers).metrics,
        m.available = true ∧ m.errorCount = 0)
    ∧ (∀ (d : MetricsData) (now : Nat) (m : ServerMetrics),
        (applySuccess d now m).available = true ∧ (applySuccess d now m).errorCount = 0)
    ∧ (∀ (now : Nat) (m : ServerMetrics),
        maxConsecErrors ≤ m.errorCount + 1 → (applyError now m).available = false) := by
  refine ⟨availInv_reachable h, ?_, ?_, ?_⟩
  · intro servers m hm
    simp only [mkLB, List.mem_map] at hm
    obtain ⟨u, _, rfl⟩ := hm
    simp [mkEntry]
  · intro d now m
    exact applySuccess_available d now m
  · intro now m hmax
    simp [applyError, hmax]

/-- Witness for claim C2 at the freshly constructed single-server
balancer. -/
theorem claim2_availability_invariant_witness :
    (mkEntry "http://a").available = true ↔ (mkEntry "http://a").errorCount < maxConsecErrors :=
  (claim2_availability_invariant (mkLB ["http://a"]) (ReachableLB.init ["http://a"])).1
    (mkEntry "http://a") (by simp [mkLB])

/-! ## Claim C4 -/

lemma mem_adel {r : List (String × RegNode)} {key : String} {p : String × RegNode}
    (hp : p ∈ adel r key) : p ∈ r := by
  induction r with
  | nil => simp [adel] at hp
  | cons q t ih =>
    obtain ⟨k0, v0⟩ := q
    by_cases hk : k0 = key
    · simp only [adel, if_pos hk] at hp
      exact List.mem_cons_of_mem _ (ih hp)
    · simp only [adel, if_neg hk, List.mem_cons] at hp
      rcases hp with rfl | hp
      · exact List.mem_cons_self _ _
      · exact List.mem_cons_of_mem _ (ih hp)

lemma mem_aset {r : List (String × RegNode)} {key : String} {n : RegNode}
    {p : String × RegNode} (hp : p ∈ aset r key n) : p = (key, n) ∨ p ∈ r := by
  simp only [aset, List.mem_cons] at hp
  rcases hp with rfl | hp
  · exact Or.inl rfl
  · exact Or.inr (mem_adel hp)

lemma alookup_mem {r : List (String × RegNode)} {key : String} {n : RegNode}
    (h : alookup r key = some n) : (key, n) ∈ r := by
  induction r with
  | nil => simp [alookup] at h
  | cons q t ih =>
    obtain ⟨k0, v0⟩ := q
    by_cases hk : k0 = key
    · subst hk
      simp [alookup] at h
      subst h
      exact List.mem_cons_self _ _
    · simp only [alookup, if_neg hk] at h
      exact List.mem_cons_of_mem _ (ih h)

lemma alookup_aset_self (r : List (String × RegNode)) (key : String) (n : RegNode) :
    alookup (aset r key n) key = some n := by
  simp [aset, alookup]

lemma regInv_reachable {maxErrors : Nat} {r : List (String × RegNode)}
    (hmax : 1 ≤ maxErrors) (h : ReachableReg maxErrors r) :
    ∀ p ∈ r, p.2.status = "healthy" → p.2.errorCount < maxErrors := by
  induction h with
  | init => intro p hp; simp at hp
  | @add r0 node now hz h ih =>
    intro p hp _
    rcases mem_aset hp with rfl | hp
    · simpa [hz] using hmax
    · exact ih p hp (by assumption)
  | @update r0 host port status now h ih =>
    intro p hp hst
    revert hp
    simp only [updateNodeStatus]
    cases hl : alookup r0 (nodeKey host port) with
    | none =>
      intro hp
      exact ih p hp hst
    | some node =>
      intro hp
      rcases mem_aset hp with rfl | hp
      · revert hst
        split_ifs with hcond
        · intro _
          simpa using hmax
        · intro hst
          simp only at hst
          have hold : node.status = "healthy" := by
            subst hst
            by_contra hne
            exact hcond ⟨rfl, hne⟩
          simpa using ih (nodeKey host port, node) (alookup_mem hl) hold
      · exact ih p hp hst
  | @increment r0 host port h ih =>
    intro p hp hst
    revert hp
    simp only [incrementErrorCount]
    cases hl : alookup r0 (nodeKey host port) with
    | none =>
      intro hp
      exact ih p hp hst
    | some node =>
      dsimp only
      split_ifs with hge
      · intro hp
        rcases mem_aset hp with rfl | hp
        · simp at hst
        · exact ih p hp hst
      · intro hp
        rcases mem_aset hp with rfl | hp
        · simpa using not_le.mp hge
        · exact ih p hp hst

/-- A node as every caller constructs it before `AddNode`: empty status,
zero error count. -/
def regNode0 : RegNode :=
  { name := "n", ntype := "ollama", host := "h", port := 1,
    status := "", lastSeen := 0, errorCount := 0 }

/-- Add the node, mark it healthy, then record one probe failure below the
threshold. -/
def regCE : List (String × RegNode) :=
  (incrementErrorCount (updateNodeStatus (addNode [] regNode0 1) "h" 1 "healthy" 2)
    "h" 1 3).1

/-- Counterexample to claim C4: after `AddNode`, `UpdateNodeStatus(healthy)`
and a single `IncrementErrorCount` below the threshold, the registry holds
a node with `status = healthy` and `error_count = 1 > 0`, refuting
`error_count = 0 whenever status = healthy`. -/
theorem claim4_counterexample :
    alookup regCE (nodeKey "h" 1) =
      some { name := "n", ntype := "ollama", host := "h", port := 1,
             status := "healthy", lastSeen := 2, errorCount := 1 } := by
  decide

/-- Claim C4, amended: `IncrementErrorCount` below the threshold leaves a
healthy node with a positive error count, so `error_count = 0` cannot hold
for every healthy node.  What the code guarantees instead: for every
registry state reachable by `AddNode` (with zero initial error count),
`UpdateNodeStatus` and `IncrementErrorCount` with a fixed threshold
`maxErrors ≥ 1`, every healthy node has `error_count < maxErrors`; and
`error_count` is reset to 0 exactly on a transition into `healthy` from a
different status. -/
theorem claim4_registry_error_count_amended :
    (∀ (maxErrors : Nat) (r : List (String × RegNode)), 1 ≤ maxErrors →
      ReachableReg maxErrors r →
      ∀ p ∈ r, p.2.status = "healthy" → p.2.errorCount < maxErrors)
    ∧ (∀ (r : List (String × RegNode)) (host : String) (port now : Nat) (n : RegNode),
        alookup r (nodeKey host port) = some n → n.status ≠ "healthy" →
        alookup (updateNodeStatus r host port "healthy" now) (nodeKey host port) =
          some { n with status := "healthy", lastSeen := now, errorCount := 0 }) := by
  constructor
  · intro maxErrors r hmax hreach
    exact regInv_reachable hmax hreach
  · intro r host port now n hl hne
    simp only [updateNodeStatus, hl]
    split_ifs with hcond
    · exact alookup_aset_self r (nodeKey host port) _
    · exact absurd ⟨trivial, hne⟩ hcond

/-- The registry after `AddNode` plus a transition to healthy. -/
def regW : List (String × RegNode) :=
  updateNodeStatus (addNode [] regNode0 1) "h" 1 "healthy" 2

/-- Witness for the amended claim C4 at a concrete reachable registry. -/
theorem claim4_registry_error_count_amended_witness :
    (({ name := "n", ntype := "ollama", host := "h", port := 1,
        status := "healthy", lastSeen := 2, errorCount := 0 } : RegNode)).errorCount < 3 :=
  claim4_registry_error_count_amended.1 3 regW (by decide)
    (ReachableReg.update "h" 1 "healthy" 2
      (ReachableReg.add regNode0 1 rfl ReachableReg.init))
    (nodeKey "h" 1,
      { name := "n", ntype := "ollama", host := "h", port := 1,
        status := "healthy", lastSeen := 2, errorCount := 0 })
    (by decide) (by decide)

/-! ## Claim C5 -/

lemma selectServer_none_iff_filter (lb : LB) :
    (selectServer lb).1 = none ↔ (lb.metrics.filter fun m => m.available) = [] := by
  dsimp only [selectServer]
  by_cases he : (lb.metrics.filter fun m => m.available).isEmpty
  · rw [if_pos he]
    simpa using List.isEmpty_iff.mp he
  · rw [if_neg he]
    have hne : ¬ (lb.metrics.filter fun m => m.available) = [] := by
      intro hh
      exact he (by simp [hh])
    split_ifs <;> simpa using hne

/-- The single-backend balancer after three consecutive failed polls. -/
def lbThreeFailures : LB :=
  stepFailure (stepFailure (stepFailure (mkLB ["http://o1"]) "http://o1" 1)
    "http://o1" 2) "http://o1" 3

/-- Claim C5: `SelectServer` fails exactly when no entry is available; on
that failure the `/ollama/` handler answers `503`, increments the error
counter once and contacts no upstream; and the single configured backend
is in exactly that state after three consecutive failed polls. -/
theorem claim5_no_backend_503 :
    (∀ lb : LB, (selectServer lb).1 = none ↔ ∀ m ∈ lb.metrics, m.available = false)
    ∧ (∀ (lb : LB) (upstreamFails : Bool), (selectServer lb).1 = none →
        (handleOllama lb upstreamFails).1 =
          { status := some 503, upstreamTarget := none, proxyErrorsInc := 1,
            proxyRequestsInc := 0, latencyRecorded := false })
    ∧ ((selectServer lbThreeFailures).1 = none
       ∧ (handleOllama lbThreeFailures false).1.status = some 503
       ∧ (handleOllama lbThreeFailures false).1.upstreamTarget = none
       ∧ (handleOllama lbThreeFailures false).1.proxyErrorsInc = 1) := by
  refine ⟨?_, ?_, by decide, by decide, by decide, by decide⟩
  · intro lb
    rw [selectServer_none_iff_filter]
    rw [List.filter_eq_nil_iff]
    constructor
    · intro hall m hm
      simpa using hall m hm
    · intro hall m hm
      simp [hall m hm]
  · intro lb upstreamFails hnone
    rcases hsel : selectServer lb with ⟨o, lbA⟩
    rw [hsel] at hnone
    simp only at hnone
    subst hnone
    simp [handleOllama, hsel]

/-- Witness for claim C5: the 503 branch of the handler, reached from the
three-failure state. -/
theorem claim5_no_backend_503_witness :
    (handleOllama lbThreeFailures false).1 =
      { status := some 503, upstreamTarget := none, proxyErrorsInc := 1,
        proxyRequestsInc := 0, latencyRecorded := false } :=
  claim5_no_backend_503.2.1 lbThreeFailures false (by decide)

/-! ## Claim C7 -/

lemma breakAtColon_eq_none_iff (l : List Char) :
    breakAtColon l = none ↔ l.contains ':' = false := by
  induction l with
  | nil => simp [breakAtColon]
  | cons x t ih =>
    simp only [breakAtColon, List.contains_cons]
    by_cases hx : x = ':'
    · subst hx
      simp
    · rw [if_neg hx]
      cases hb : breakAtColon t with
      | none =>
        rw [hb] at ih
        constructor
        · intro _
          simp only [Bool.or_eq_false_iff]
          exact ⟨beq_eq_false_iff_ne.mpr fun h => hx h.symm, ih.mp rfl⟩
        · intro _
          rfl
      | some up =>
        rw [hb] at ih
        constructor
        · intro hcontra
          exact absurd hcontra (by simp)
        · intro hf
          simp only [Bool.or_eq_false_iff] at hf
          exact absurd (ih.mpr hf.2) (by simp)

/-- Claim C7: with auth enabled and a non-public path, the middleware
answers `401 Unauthorized` exactly when the `Authorization` header is
absent, not of `Basic` type, not valid base64, or decodes to a string
without a colon; and it answers `403 Forbidden` exactly when the
credentials parse but the directory flow fails — whichever directory step
failed, the response is the same `403 Forbidden`. -/
theorem claim7_auth_status_codes (cfg : MWConfig) (b64Decode : String → Option String)
    (env : LdapEnv) (r : Request)
    (hen : cfg.adEnabled = true)
    (hpub : isPublicPath r.path cfg.publicPaths = false) :
    (ldapAuthMiddleware cfg b64Decode env r = .reject 401 "Unauthorized" ↔
      (hGet r.headers "Authorization" = ""
       ∨ goHasPre (hGet r.headers "Authorization") "Basic " = false
       ∨ b64Decode (goTrimPre (hGet r.headers "Authorization") "Basic ") = none
       ∨ (∃ decoded, b64Decode (goTrimPre (hGet r.headers "Authorization") "Basic ") = some decoded
            ∧ decoded.toList.contains ':' = false)))
    ∧ (ldapAuthMiddleware cfg b64Decode env r = .reject 403 "Forbidden" ↔
      (hGet r.headers "Authorization" ≠ ""
       ∧ goHasPre (hGet r.headers "Authorization") "Basic " = true
       ∧ ∃ decoded u p,
           b64Decode (goTrimPre (hGet r.headers "Authorization") "Basic ") = some decoded
           ∧ breakAtColon decoded.toList = some (u, p)
           ∧ ∃ e, authenticateAndAuthorize cfg env (String.mk u) (String.mk p) = .error e)) := by
  simp only [ldapAuthMiddleware, hen, hpub, Bool.true_eq_false, if_false, Bool.false_eq_true]
  by_cases h1 : hGet r.headers "Authorization" = ""
  · rw [if_pos h1]
    constructor
    · simp [h1]
    · simp [h1]
  · rw [if_neg h1]
    by_cases h2 : goHasPre (hGet r.headers "Authorization") "Basic " = false
    · rw [if_pos h2]
      constructor
      · simp [h1, h2]
      · simp [h2]
    · rw [if_neg h2]
      have h2t : goHasPre (hGet r.headers "Authorization") "Basic " = true := by
        revert h2
        cases goHasPre (hGet r.headers "Authorization") "Basic " <;> simp
      cases hb : b64Decode (goTrimPre (hGet r.headers "Authorization") "Basic ") with
      | none =>
        simp only [hb]
        constructor
        · simp
        · simp [h1]
      | some decoded =>
        simp only [hb]
        cases hc : breakAtColon decoded.toList with
        | none =>
          simp only [hc]
          constructor
          · constructor
            · intro _
              exact Or.inr (Or.inr (Or.inr
                ⟨decoded, rfl, (breakAtColon_eq_none_iff decoded.toList).mp hc⟩))
            · intro _
              trivial
          · constructor
            · intro hcontra
              simp at hcontra
            · rintro ⟨-, -, d, u1, p1, hd, hbrk, -⟩
              injection hd with hd
              subst hd
              rw [hc] at hbrk
              exact Option.noConfusion hbrk
        | some up =>
          obtain ⟨u0, p0⟩ := up
          simp only [hc]
          cases ha : authenticateAndAuthorize cfg env (String.mk u0) (String.mk p0) with
          | error e =>
            simp only [ha]
            constructor
            · constructor
              · intro hcontra
                simp at hcontra
              · rintro (hx | hx | hx | ⟨d, hd, hcol⟩)
                · exact absurd hx h1
                · exact absurd hx h2
                · exact Option.noConfusion hx
                · injection hd with hd
                  subst hd
                  rw [(breakAtColon_eq_none_iff decoded.toList).mpr hcol] at hc
                  exact Option.noConfusion hc
            · constructor
              · intro _
                exact ⟨h1, h2t, decoded, u0, p0, rfl, hc, e, ha⟩
              · intro _
                trivial
          | ok u =>
            simp only [ha]
            constructor
            · constructor
              · intro hcontra
                simp at hcontra
              · rintro (hx | hx | hx | ⟨d, hd, hcol⟩)
                · exact absurd hx h1
                · exact absurd hx h2
                · exact Option.noConfusion hx
                · injection hd with hd
                  subst hd
                  rw [(breakAtColon_eq_none_iff decoded.toList).mpr hcol] at hc
                  exact Option.noConfusion hc
            · constructor
              · intro hcontra
                simp at hcontra
              · rintro ⟨-, -, d, u1, p1, hd, hbrk, e, herr⟩
                injection hd with hd
                subst hd
                rw [hc] at hbrk
                injection hbrk with hbrk
                cases hbrk
                rw [ha] at herr
                exact Except.noConfusion herr

/-- A configuration with auth enabled and no public paths. -/
def cfgW : MWConfig := { adEnabled := true, publicPaths := [], allowedGroups := ["admins"] }

/-- A base64 decoder stub that decodes the witness credential. -/
def b64W : String → Option String := fun _ => some "alice:pw"

/-- A directory that cannot be reached (dial fails). -/
def envW : LdapEnv :=
  { dialOk := false, serviceBindOk := true, search := fun _ => some [],
    userBindOk := fun _ _ => true }

/-- A request with Basic credentials for a protected path. -/
def reqW : Request :=
  { path := "/openai/chat", headers := [("Authorization", "Basic eHg6eXk=")],
    remoteAddr := "203.0.113.7", scheme := "https", host := "proxy.example" }

/-- Witness for claim C7: an unreachable directory yields `403 Forbidden`. -/
theorem claim7_auth_status_codes_witness :
    ldapAuthMiddleware cfgW b64W envW reqW = .reject 403 "Forbidden" :=
  (claim7_auth_status_codes cfgW b64W envW reqW rfl (by decide)).2.mpr
    ⟨by decide, by decide, "alice:pw", ['a', 'l', 'i', 'c', 'e'], ['p', 'w'], rfl, by decide,
     "errore connessione LDAP", rfl⟩

/-! ## Claim C10 -/

/-- Claim C10: when authentication is bypassed (auth disabled or public
path), the middleware forwards the request untouched, and each backend
director preserves a non-empty client-supplied `X-Forwarded-User`
unchanged — an unauthenticated client can present an arbitrary identity to
the upstream. -/
theorem claim10_forwarded_user_passthrough (cfg : MWConfig)
    (b64Decode : String → Option String) (env : LdapEnv) (r : Request)
    (targetScheme targetHost sharedKey : String)
    (hbypass : cfg.adEnabled = false ∨ isPublicPath r.path cfg.publicPaths = true) :
    ldapAuthMiddleware cfg b64Decode env r = .forward r
    ∧ (hGet r.headers "X-Forwarded-User" ≠ "" →
        hGet (ollamaDirector targetScheme targetHost r).headers "X-Forwarded-User"
          = hGet r.headers "X-Forwarded-User"
        ∧ hGet (vllmDirector targetScheme targetHost r).headers "X-Forwarded-User"
          = hGet r.headers "X-Forwarded-User"
        ∧ hGet (openaiDirector targetScheme targetHost sharedKey r).headers "X-Forwarded-User"
          = hGet r.headers "X-Forwarded-User") := by
  constructor
  · rcases hbypass with he | hp
    · simp [ldapAuthMiddleware, he]
    · by_cases he : cfg.adEnabled = false
      · simp [ldapAuthMiddleware, he]
      · simp [ldapAuthMiddleware, he, hp]
  · intro hu
    have hdel : hGet (hDel r.headers "Authorization") "X-Forwarded-User"
        = hGet r.headers "X-Forwarded-User" :=
      hGet_hDel_ne _ _ _ (by decide)
    refine ⟨?_, ?_, ?_⟩
    · simp only [ollamaDirector]
      rw [if_pos (by rw [hdel]; exact hu)]
      rw [hGet_hSet_ne _ _ _ _ (by decide), hGet_hSet_ne _ _ _ _ (by decide),
        hGet_hSet_self]
      exact hdel
    · simp only [vllmDirector]
      rw [if_pos (by rw [hdel]; exact hu)]
      rw [hGet_hSet_ne _ _ _ _ (by decide), hGet_hSet_ne _ _ _ _ (by decide),
        hGet_hSet_self]
      exact hdel
    · simp only [openaiDirector]
      have hauth : hGet (hSet (hDel r.headers "Authorization") "Authorization"
          ("Bearer " ++ sharedKey)) "X-Forwarded-User" = hGet r.headers "X-Forwarded-User" := by
        rw [hGet_hSet_ne _ _ _ _ (by decide)]
        exact hdel
      rw [if_pos (by rw [hauth]; exact hu)]
      rw [hGet_hSet_self]
      exact hauth

/-- A configuration where `/ollama/*` is public. -/
def cfgB : MWConfig := { adEnabled := true, publicPaths := ["/ollama/*"], allowedGroups := [] }

/-- An unauthenticated request carrying a forged identity header. -/
def reqB : Request :=
  { path := "/ollama/api/generate", headers := [("X-Forwarded-User", "mallory")],
    remoteAddr := "198.51.100.9", scheme := "https", host := "proxy.example" }

/-- Witness for claim C10: on the public `/ollama/*` path the middleware
and director leave the forged `X-Forwarded-User: mallory` intact. -/
theorem claim10_forwarded_user_passthrough_witness :
    ldapAuthMiddleware cfgB b64W envW reqB = .forward reqB
    ∧ hGet (ollamaDirector "http" "backend:11434" reqB).headers "X-Forwarded-User"
        = hGet reqB.headers "X-Forwarded-User" :=
  ⟨(claim10_forwarded_user_passthrough cfgB b64W envW reqB "http" "backend:11434" "key"
      (Or.inr (by decide))).1,
   ((claim10_forwarded_user_passthrough cfgB b64W envW reqB "http" "backend:11434" "key"
      (Or.inr (by decide))).2 (by decide)).1⟩

/-! ## Claim C3 -/

lemma selStep_fst_le (acc : ℚ × String) (m : ServerMetrics) :
    (selStep acc m).1 ≤ acc.1 := by
  unfold selStep
  split_ifs with h
  · exact le_of_lt h.2
  · exact le_refl _

lemma foldl_selStep_fst_le (l : List ServerMetrics) (acc : ℚ × String) :
    (l.foldl selStep acc).1 ≤ acc.1 := by
  induction l generalizing acc with
  | nil => exact le_refl _
  | cons a t ih =>
    exact le_trans (ih (selStep acc a)) (selStep_fst_le acc a)

lemma foldl_selStep_min (l : List ServerMetrics) (acc : ℚ × String) :
    ∀ m ∈ l, m.lastCheck ≠ 0 → (l.foldl selStep acc).1 ≤ m.totalWeight := by
  induction l generalizing acc with
  | nil => intro m hm; simp at hm
  | cons a t ih =>
    intro m hm hlc
    rcases List.mem_cons.mp hm with rfl | hm
    · by_cases hcond : m.lastCheck ≠ 0 ∧ m.totalWeight < acc.1
      · have hstep : (selStep acc m).1 = m.totalWeight := by
          unfold selStep
          rw [if_pos hcond]
        rw [List.foldl_cons]
        exact le_trans (foldl_selStep_fst_le t _) (le_of_eq hstep)
      · have hge : acc.1 ≤ m.totalWeight := by
          by_contra hlt
          exact hcond ⟨hlc, not_le.mp hlt⟩
        have hstep : selStep acc m = acc := by
          unfold selStep
          rw [if_neg hcond]
        rw [List.foldl_cons, hstep]
        exact le_trans (foldl_selStep_fst_le t acc) hge
    · exact ih (selStep acc a) m hm hlc

lemma foldl_selStep_mem (l : List ServerMetrics) (acc : ℚ × String) :
    l.foldl selStep acc = acc
    ∨ ∃ m ∈ l, l.foldl selStep acc = (m.totalWeight, m.url) ∧ m.lastCheck ≠ 0 := by
  induction l generalizing acc with
  | nil => exact Or.inl rfl
  | cons a t ih =>
    rw [List.foldl_cons]
    rcases ih (selStep acc a) with h | ⟨m, hm, hr, hlc⟩
    · by_cases hcond : a.lastCheck ≠ 0 ∧ a.totalWeight < acc.1
      · refine Or.inr ⟨a, List.mem_cons_self _ _, ?_, hcond.1⟩
        rw [h]
        unfold selStep
        rw [if_pos hcond]
      · refine Or.inl ?_
        rw [h]
        unfold selStep
        rw [if_neg hcond]
    · exact Or.inr ⟨m, List.mem_cons_of_mem _ hm, hr, hlc⟩

lemma roundRobinPick_mem (avail : List ServerMetrics) (idx : Nat) (hne : avail ≠ []) :
    ∃ m ∈ avail, roundRobinPick avail idx = m.url := by
  have hlen : 0 < avail.length := List.length_pos.mpr hne
  have hlt : idx % avail.length < avail.length := Nat.mod_lt _ hlen
  refine ⟨avail[idx % avail.length], List.getElem_mem hlt, ?_⟩
  unfold roundRobinPick
  rw [List.getD_eq_getElem avail default hlt]

lemma selectServer_some_available {lb : LB} {url : String} {lb2 : LB}
    (hsel : selectServer lb = (some url, lb2)) :
    ∃ m ∈ lb.metrics, m.url = url ∧ m.available = true := by
  dsimp only [selectServer] at hsel
  by_cases he : (lb.metrics.filter fun m => m.available).isEmpty
  · rw [if_pos he] at hsel
    simp at hsel
  · rw [if_neg he] at hsel
    have hne : (lb.metrics.filter fun m => m.available) ≠ [] := by
      intro hh
      exact he (by simp [hh])
    by_cases hm : ((lb.metrics.filter fun m => m.available).any
        fun m => decide (m.lastCheck ≠ 0)) = true
    · rw [if_pos hm] at hsel
      by_cases hs : (selectWeighted (lb.metrics.filter fun m => m.available)).2 = ""
      · rw [if_pos hs] at hsel
        injection hsel with h1 h2
        injection h1 with h1
        obtain ⟨m, hmem, hurl⟩ := roundRobinPick_mem _ lb.roundRobinIndex hne
        refine ⟨m, (List.mem_filter.mp hmem).1, ?_, (List.mem_filter.mp hmem).2⟩
        rw [← hurl]
        exact h1
      · rw [if_neg hs] at hsel
        injection hsel with h1 h2
        injection h1 with h1
        rcases foldl_selStep_mem (lb.metrics.filter fun m => m.available)
            (maxFloat64, "") with hinit | ⟨m, hmem, hr, -⟩
        · refine absurd ?_ hs
          show (selectWeighted _).2 = ""
          rw [selectWeighted, hinit]
        · have hsel2 : (selectWeighted (lb.metrics.filter fun m => m.available)).2 = m.url := by
            rw [selectWeighted, hr]
          refine ⟨m, (List.mem_filter.mp hmem).1, ?_, (List.mem_filter.mp hmem).2⟩
          rw [← hsel2]
          exact h1
    · rw [if_neg hm] at hsel
      injection hsel with h1 h2
      injection h1 with h1
      obtain ⟨m, hmem, hurl⟩ := roundRobinPick_mem _ lb.roundRobinIndex hne
      refine ⟨m, (List.mem_filter.mp hmem).1, ?_, (List.mem_filter.mp hmem).2⟩
      rw [← hurl]
      exact h1

lemma selectServer_weighted_min {lb : LB}
    (hurl : ∀ m ∈ lb.metrics, m.url ≠ "")
    {m0 : ServerMetrics} (hm0 : m0 ∈ lb.metrics) (hav : m0.available = true)
    (hlc : m0.lastCheck ≠ 0) (hlt : m0.totalWeight < maxFloat64) :
    ∃ m ∈ lb.metrics, (selectServer lb).1 = some m.url ∧ m.available = true
      ∧ m.lastCheck ≠ 0
      ∧ ∀ m2 ∈ lb.metrics, m2.available = true → m2.lastCheck ≠ 0 →
          m.totalWeight ≤ m2.totalWeight := by
  have hm0a : m0 ∈ lb.metrics.filter fun m => m.available :=
    List.mem_filter.mpr ⟨hm0, hav⟩
  have hne : (lb.metrics.filter fun m => m.available) ≠ [] :=
    List.ne_nil_of_mem hm0a
  have he : (lb.metrics.filter fun m => m.available).isEmpty = false := by
    cases h : (lb.metrics.filter fun m => m.available).isEmpty
    · rfl
    · exact absurd (List.isEmpty_iff.mp h) hne
  have hany : ((lb.metrics.filter fun m => m.available).any
      fun m => decide (m.lastCheck ≠ 0)) = true := by
    rw [List.any_eq_true]
    exact ⟨m0, hm0a, by simpa using hlc⟩
  have hminle : (selectWeighted (lb.metrics.filter fun m => m.available)).1 ≤ m0.totalWeight :=
    foldl_selStep_min _ (maxFloat64, "") m0 hm0a hlc
  have hltmax : (selectWeighted (lb.metrics.filter fun m => m.available)).1 < maxFloat64 :=
    lt_of_le_of_lt hminle hlt
  rcases foldl_selStep_mem (lb.metrics.filter fun m => m.available)
      (maxFloat64, "") with hinit | ⟨m, hmem, hr, hlcm⟩
  · refine absurd hltmax ?_
    show ¬ (selectWeighted _).1 < maxFloat64
    rw [selectWeighted, hinit]
    exact lt_irrefl _
  · have hsel2 : selectWeighted (lb.metrics.filter fun m => m.available)
        = (m.totalWeight, m.url) := by
      rw [selectWeighted, hr]
    have hsne : ¬ (selectWeighted (lb.metrics.filter fun m => m.available)).2 = "" := by
      rw [hsel2]
      exact hurl m (List.mem_filter.mp hmem).1
    have hselval : (selectServer lb).1
        = some (selectWeighted (lb.metrics.filter fun m => m.available)).2 := by
      dsimp only [selectServer]
      rw [if_neg (by rw [he]; exact Bool.false_ne_true), if_pos hany, if_neg hsne]
    refine ⟨m, (List.mem_filter.mp hmem).1, ?_, (List.mem_filter.mp hmem).2, hlcm, ?_⟩
    · rw [hselval, hsel2]
    · intro m2 hm2 hav2 hlc2
      have hm2a : m2 ∈ lb.metrics.filter fun m => m.available :=
        List.mem_filter.mpr ⟨hm2, hav2⟩
      have hle := foldl_selStep_min (lb.metrics.filter fun m => m.available)
        (maxFloat64, "") m2 hm2a hlc2
      have hfst : (selectWeighted (lb.metrics.filter fun m => m.available)).1
          = m.totalWeight := by
        rw [hsel2]
      rw [selectWeighted] at hfst
      rw [hfst] at hle
      exact hle

/-- An available but never-probed entry (`last_check = 0`). -/
def mCEa : ServerMetrics :=
  { url := "a", cpuPercent := 0, ramPercent := 0, gpuCount := 0,
    gpuAvgUtil := 0, gpuAvgMemory := 0, available := true,
    lastCheck := 0, errorCount := 0, totalWeight := 0 }

/-- An available probed entry whose weight equals the `math.MaxFloat64`
sentinel, so the strict comparison of the weighted loop never picks it. -/
def mCEb : ServerMetrics :=
  { url := "b", cpuPercent := maxFloat64, ramPercent := 0, gpuCount := 0,
    gpuAvgUtil := 0, gpuAvgMemory := 0, available := true,
    lastCheck := 5, errorCount := 0, totalWeight := maxFloat64 }

/-- The state that defeats the claim as stated. -/
def lbCE : LB := { metrics := [mCEa, mCEb], roundRobinIndex := 0 }

/-- Counterexample to claim C3 as stated: `lbCE` has an available entry
with `last_check ≠ 0` (namely `b`), yet `SelectServer` returns `a`, whose
entry has `last_check = 0` — because `b`'s weight does not strictly
undercut the `math.MaxFloat64` sentinel and the loop falls back to
round-robin over all available entries. -/
theorem claim3_counterexample :
    (mCEb ∈ lbCE.metrics ∧ mCEb.available = true ∧ mCEb.lastCheck ≠ 0)
    ∧ (selectServer lbCE).1 = some "a"
    ∧ lbCE.metrics.filter (fun m => decide (m.url = "a")) = [mCEa]
    ∧ mCEa.lastCheck = 0 := by
  decide

/-- The S4 scenario: backend 1 with metrics `{cpu=80, ram=70, gpu=0}`. -/
def mS4a : ServerMetrics :=
  { url := "http://b1", cpuPercent := 80, ramPercent := 70, gpuCount := 0,
    gpuAvgUtil := 0, gpuAvgMemory := 0, available := true,
    lastCheck := 10, errorCount := 0, totalWeight := 150 }

/-- The S4 scenario: backend 2 with metrics `{cpu=20, ram=30, gpu=0}`. -/
def mS4b : ServerMetrics :=
  { url := "http://b2", cpuPercent := 20, ramPercent := 30, gpuCount := 0,
    gpuAvgUtil := 0, gpuAvgMemory := 0, available := true,
    lastCheck := 10, errorCount := 0, totalWeight := 50 }

/-- Both S4 backends probed and available. -/
def lbS4 : LB := { metrics := [mS4a, mS4b], roundRobinIndex := 0 }

/-- Claim C3, amended: `SelectServer` only ever returns the URL of an
available entry; and whenever some available entry has `last_check ≠ 0`
**and** `total_weight < math.MaxFloat64` (and no configured URL is the
empty string), it returns an available probed entry whose weight is
minimal among the available probed entries.  The unamended claim fails
when every probed weight reaches the `MaxFloat64` sentinel
(`claim3_counterexample`).  Concretely, with probed weights 150 and 50,
five consecutive calls all return the lower-weight URL. -/
theorem claim3_select_weighted_amended :
    (∀ (lb : LB) (url : String) (lb2 : LB), selectServer lb = (some url, lb2) →
      ∃ m ∈ lb.metrics, m.url = url ∧ m.available = true)
    ∧ (∀ lb : LB, (∀ m ∈ lb.metrics, m.url ≠ "") →
        ∀ m0 ∈ lb.metrics, m0.available = true → m0.lastCheck ≠ 0 →
          m0.totalWeight < maxFloat64 →
          ∃ m ∈ lb.metrics, (selectServer lb).1 = some m.url ∧ m.available = true
            ∧ m.lastCheck ≠ 0
            ∧ ∀ m2 ∈ lb.metrics, m2.available = true → m2.lastCheck ≠ 0 →
                m.totalWeight ≤ m2.totalWeight)
    ∧ selectCalls 5 lbS4 =
        ([some "http://b2", some "http://b2", some "http://b2",
          some "http://b2", some "http://b2"], lbS4) := by
  refine ⟨?_, ?_, by decide⟩
  · intro lb url lb2 hsel
    exact selectServer_some_available hsel
  · intro lb hurl m0 hm0 hav hlc hlt
    exact selectServer_weighted_min hurl hm0 hav hlc hlt

/-- Witness for the amended claim C3 in the S4 state: the selector picks
the minimal-weight probed entry. -/
theorem claim3_select_weighted_amended_witness :
    ∃ m ∈ lbS4.metrics, (selectServer lbS4).1 = some m.url ∧ m.available = true
      ∧ m.lastCheck ≠ 0
      ∧ ∀ m2 ∈ lbS4.metrics, m2.available = true → m2.lastCheck ≠ 0 →
          m.totalWeight ≤ m2.totalWeight :=
  claim3_select_weighted_amended.2.1 lbS4 (by decide) mS4b (by decide) (by decide)
    (by decide) (by decide)
